import Mathlib

/-!
Shallow embedding of the formula-recognition demo
(`demos/formula_recognition_demo/python/{utils.py, formula_recognition_demo.py}`).

The embedding models:
* the module constants `START_TOKEN`, `END_TOKEN`, `COLOR_WHITE`;
* `np.argmax` over a vector (first index of the maximum), `np.amax` (maximum value);
* `calculate_probability` (utils.py:138-143);
* the `Model` decoding state machine: `_process_decoding_results`,
  `_run_encoder`, `_run_decoder`, `_unpack_enc_results`, `infer_sync`,
  `infer_async` (utils.py:146-281).  The inference engine is opaque in the
  source (submit named tensors, wait, read output blobs), so it is modelled
  as an environment giving, for the i-th submitted decoder request, the
  logit vector its output blob holds; the status code each `wait` call
  returns is passed to each step as an argument.  The recurrent tensors
  (`row_enc_out`, `dec_states_c/h`, `output`) are threaded by the source
  from one request to the next but never inspected by the control flow, so
  they are not part of the modelled state;
* `Vocab.construct_phrase` (utils.py:340-355);
* `Renderer.render` (utils.py:299-311), with the external typesetting tool
  (`sympy.preview` + `cv.imread`) as an oracle;
* `crop` and `preprocess_image` (utils.py:51-56, 87-98), over images as
  lists of pixel rows;
* the confidence gates of `main` (formula_recognition_demo.py:228-241 for
  the blocking batch path, 252-264 for the interactive path).
-/

/-- Constant `START_TOKEN = 0` (utils.py:17). -/
def START_TOKEN : ℕ := 0

/-- Constant `END_TOKEN = 2` (utils.py:18). -/
def END_TOKEN : ℕ := 2

/-- Auxiliary scan for `argmax`: current best value, its index, next index. -/
def argmaxAux : List ℚ → ℚ → ℕ → ℕ → ℕ
  | [], _, best, _ => best
  | x :: xs, bv, best, i =>
      if bv < x then argmaxAux xs x i (i + 1) else argmaxAux xs bv best (i + 1)

/-- The embedding of `np.argmax` over one logit vector: index of the first
occurrence of the maximum value (`0` on the empty vector, on which numpy
would raise). -/
def argmax : List ℚ → ℕ
  | [] => 0
  | x :: xs => argmaxAux xs x 0 1

/-- The embedding of `np.amax` over one vector: its maximum value
(junk value `0` on the empty vector, on which numpy would raise). -/
def amax : List ℚ → ℚ
  | [] => 0
  | x :: xs => xs.foldl max x

/-- The embedding of `calculate_probability` (utils.py:138-143): start from
`prob = 1`, take the per-step maxima `np.amax(logits, axis=1)` and multiply
them in, in order. -/
def calculate_probability (logits : List (List ℚ)) : ℚ :=
  (logits.map amax).foldl (fun a p => a * p) 1

/-- The `Model.Status` enum (utils.py:147-150). -/
inductive MStatus where
  | ready : MStatus
  | encoder_infer : MStatus
  | decoder_infer : MStatus
deriving DecidableEq, Repr

/-- The fields of `Model` that the decoding control flow reads or writes:
`model_status`, `num_infers_decoder`, `logits`, and `tgt` (the source wraps
`tgt` as `np.array([[t]])`; only the scalar is ever inspected, via
`self.tgt[0][0][0]`). -/
structure ModelState where
  model_status : MStatus
  num_infers_decoder : ℕ
  logits : List (List ℚ)
  tgt : ℕ
deriving DecidableEq, Repr

/-- The state of `Model` right after `__init__` (utils.py:152-168):
`model_status = ready`, `num_infers_decoder = 0`; `logits` and `tgt` are not
yet initialised in the source and are given junk values here. -/
def initState : ModelState :=
  { model_status := MStatus.ready, num_infers_decoder := 0, logits := [], tgt := 0 }

/-- The opaque inference engine: `decLogit i` is the logit vector found in
the output blobs of the i-th submitted decoder request (`num_infers_decoder`
is `i` while that request is in flight). -/
structure Env where
  decLogit : ℕ → List ℚ

/-- One decode result as returned at utils.py:242: the stacked logit matrix
(`squeeze` only drops the singleton axis, so it is the list of per-step
vectors) and `targets = np.argmax(logits, axis=1)`. -/
structure DecodeResult where
  logits : List (List ℚ)
  targets : List ℕ
deriving DecidableEq, Repr

/-- The embedding of `Model._process_decoding_results` (utils.py:228-251).
`status` is what `self._infer_request_handle_decoder.wait(timeout)` returned
on this call.  If it is non-zero and the model is asynchronous, return
`None` leaving the state untouched; otherwise unpack the decoder outputs
(`_unpack_dec_results`, utils.py:267-273: append the logit, set
`tgt := argmax logit`), then test `tgt == END_TOKEN or
num_infers_decoder >= max_formula_len`; on termination reset
`num_infers_decoder` to `0`, return to `ready` and produce the result,
otherwise submit the next decoder request (`_async_infer_decoder`,
utils.py:192-200, which increments `num_infers_decoder`). -/
def process_decoding_results (env : Env) (is_async : Bool) (max_formula_len : ℕ)
    (status : ℤ) (s : ModelState) : ModelState × Option DecodeResult :=
  if status ≠ 0 ∧ is_async = true then (s, none)
  else
    let logit := env.decLogit s.num_infers_decoder
    let newLogits := s.logits ++ [logit]
    let t := argmax logit
    if t = END_TOKEN ∨ max_formula_len ≤ s.num_infers_decoder then
      ({ s with
          model_status := MStatus.ready
          num_infers_decoder := 0
          logits := newLogits
          tgt := t },
       some { logits := newLogits, targets := newLogits.map argmax })
    else
      ({ s with
          num_infers_decoder := s.num_infers_decoder + 1
          logits := newLogits
          tgt := t },
       none)

/-- The embedding of `Model._run_encoder` (utils.py:253-258): submit the
encoder request, set `model_status := encoder_infer`, wait once and return
that wait's status code. -/
def run_encoder (status : ℤ) (s : ModelState) : ModelState × ℤ :=
  ({ s with model_status := MStatus.encoder_infer }, status)

/-- The embedding of `Model._run_decoder` (utils.py:260-265) together with
`_unpack_enc_results` (utils.py:275-281): unpack the encoder outputs, set
`tgt := START_TOKEN` and `logits := []`, submit the first decoder request
(`_async_infer_decoder` increments `num_infers_decoder`), and set
`model_status := decoder_infer`. -/
def run_decoder (s : ModelState) : ModelState :=
  { s with
      model_status := MStatus.decoder_infer
      num_infers_decoder := s.num_infers_decoder + 1
      logits := []
      tgt := START_TOKEN }

/-- The embedding of `Model.infer_async` (utils.py:202-216).  `status` is
the status code the single `wait(timeout=1)` performed by this call returns
(inside `_run_encoder` when `ready`, at utils.py:211 when `encoder_infer`,
inside `_process_decoding_results` when `decoder_infer`). -/
def infer_async (env : Env) (max_formula_len : ℕ) (status : ℤ)
    (s : ModelState) : ModelState × Option DecodeResult :=
  match s.model_status with
  | MStatus.ready => ((run_encoder status s).1, none)
  | MStatus.encoder_infer =>
      if status = 0 then (run_decoder s, none) else (s, none)
  | MStatus.decoder_infer =>
      process_decoding_results env true max_formula_len status s

/-- The `while res is None` loop of `Model.infer_sync` (utils.py:223-226),
with explicit fuel (the source loop is unbounded; `infer_sync` gives it
enough fuel and the termination theorems show it always returns `some`).
`decSt i` is the status the decoder `wait(-1)` returns while request `i` is
in flight (the sync path ignores it, as proved below). -/
def syncLoop (env : Env) (decSt : ℕ → ℤ) (max_formula_len : ℕ) :
    ℕ → ModelState → ModelState × Option DecodeResult
  | 0, s => (s, none)
  | fuel + 1, s =>
      match process_decoding_results env false max_formula_len
              (decSt s.num_infers_decoder) s with
      | (s', some r) => (s', some r)
      | (s', none) => syncLoop env decSt max_formula_len fuel s'

/-- The embedding of `Model.infer_sync` (utils.py:218-226): run the encoder
(discarding the status code `_run_encoder` returns, as the source does),
run the first decoder step, then loop `_process_decoding_results` until it
yields a result. -/
def infer_sync (env : Env) (decSt : ℕ → ℤ) (encSt : ℤ) (max_formula_len : ℕ)
    (s : ModelState) : ModelState × Option DecodeResult :=
  let s1 := (run_encoder encSt s).1
  let s2 := run_decoder s1
  syncLoop env decSt max_formula_len max_formula_len s2

/-- Folding `infer_async` over a list of per-call wait statuses, from a
given state: the reachable states of the interactive loop. -/
def runAsync (env : Env) (max_formula_len : ℕ) (statuses : List ℤ)
    (s : ModelState) : ModelState :=
  statuses.foldl (fun st code => (infer_async env max_formula_len code st).1) s

/-- The embedding of `Vocab.construct_phrase`'s loop (utils.py:349-354):
walk the tokens in order, stop at the first `END_TOKEN` without rendering
it, and map each other token through `id2sign.get(token, "?")`.  Token ids
are arbitrary integers, the table an arbitrary partial map. -/
def phraseTokens (id2sign : ℤ → Option String) : List ℤ → List String
  | [] => []
  | t :: ts =>
      if t = (END_TOKEN : ℤ) then []
      else (id2sign t).getD "?" :: phraseTokens id2sign ts

/-- The embedding of `Vocab.construct_phrase` (utils.py:340-355):
`" ".join(phrase_converted)`. -/
def construct_phrase (id2sign : ℤ → Option String) (indices : List ℤ) : String :=
  String.intercalate " " (phraseTokens id2sign indices)

/-- The fields of `Renderer` that `render` reads or writes (utils.py:289-297):
`cur_formula`, `res_img`, and the fixed temporary `output_file` path.
Bitmaps are opaque and modelled as natural numbers. -/
structure RendererState where
  cur_formula : Option String
  res_img : Option ℕ
  output_file : String
deriving DecidableEq, Repr

/-- What one `Renderer.render` call returns (utils.py:299-311): either the
`output_file` path string (the early return at utils.py:303) or the pair
`(res_img, cur_formula)` (the return at utils.py:311, where `res_img` is
`None` when the `try` block raised). -/
inductive RenderResult where
  | filePath (p : String) : RenderResult
  | imgPair (img : Option ℕ) (formula : String) : RenderResult
deriving DecidableEq, Repr

/-- The fall-through tail of `Renderer.render` (utils.py:304-311): set
`cur_formula := formula`, run the external typesetting tool
(`sympy.preview` then `cv.imread`, modelled by the oracle `tool`; `none`
models the swallowed exception setting `res_img = None`), and return
`(res_img, cur_formula)`.  The final component counts external-tool
invocations made by the call. -/
def renderRun (tool : String → Option ℕ) (s : RendererState) (formula : String) :
    RendererState × RenderResult × ℕ :=
  let img := tool formula
  ({ s with cur_formula := some formula, res_img := img },
   RenderResult.imgPair img formula, 1)

/-- The embedding of `Renderer.render` (utils.py:299-311): on the first ever
call `cur_formula` is `None`, so it is set and the formula is rendered; if
`cur_formula` already equals the requested formula, return `output_file`
without touching the tool; otherwise render the new formula. -/
def render (tool : String → Option ℕ) (s : RendererState) (formula : String) :
    RendererState × RenderResult × ℕ :=
  match s.cur_formula with
  | none => renderRun tool s formula
  | some f =>
      if f = formula then (s, RenderResult.filePath s.output_file, 0)
      else renderRun tool s formula

/-- Pixels of a 3-channel image. -/
abbrev Pixel := ℕ × ℕ × ℕ

/-- Constant `COLOR_WHITE = (255, 255, 255)` (utils.py:26). -/
def COLOR_WHITE : Pixel := (255, 255, 255)

/-- An image as numpy stores it: a list of pixel rows; `shape[0]` is the row
count and `shape[1]` the (uniform) row width, read off the first row. -/
abbrev Image := List (List Pixel)

/-- Width of an image, `img.shape[1]`: the length of its first row (`0` for
an image with no rows). -/
def imgWidth (img : Image) : ℕ := (img.headD []).length

/-- The embedding of `crop` (utils.py:51-56): keep the first
`min target_height img_h` rows and the first `min target_width img_w`
columns of each kept row. -/
def crop (img : Image) (target_shape : ℕ × ℕ) : Image :=
  let new_w := min target_shape.2 (imgWidth img)
  let new_h := min target_shape.1 img.length
  (img.take new_h).map (fun r => r.take new_w)

/-- The embedding of the `cv.copyMakeBorder(img, 0, bottom, 0, right,
BORDER_CONSTANT, None, value)` call at utils.py:95-97: extend every row by
`right` copies of `value` on the right and append `bottom` rows of `value`
at full padded width. -/
def copyMakeBorder (img : Image) (bottom right : ℕ) (value : Pixel) : Image :=
  img.map (fun r => r ++ List.replicate right value) ++
    List.replicate bottom (List.replicate (imgWidth img + right) value)

/-- The embedding of `preprocess_image` (utils.py:87-98): apply the chosen
preprocessing, then pad the result at the bottom and the right with
`COLOR_WHITE` up to the target shape.  The source computes the border
widths as Python integer differences; after `crop` they are non-negative,
which is the case this development reasons about, so truncated ℕ
subtraction coincides with the source. -/
def preprocess_image (preprocess : Image → ℕ × ℕ → Image)
    (image_raw : Image) (tgt_shape : ℕ × ℕ) : Image :=
  let cropped := preprocess image_raw tgt_shape
  copyMakeBorder cropped (tgt_shape.1 - cropped.length)
    (tgt_shape.2 - imgWidth cropped) COLOR_WHITE

/-- The body of the blocking batch loop of `main`
(formula_recognition_demo.py:228-241), after `infer_sync` returned
`(logits, targets)`: compute the confidence; if it reaches the flat
threshold, emit the output line `img_name + "\t" + phrase` (the file and
console paths print the same name/phrase pair), otherwise emit nothing. -/
def batchOutputLine (id2sign : ℤ → Option String) (conf_thresh : ℚ)
    (img_name : String) (logits : List (List ℚ)) (targets : List ℕ) :
    Option String :=
  let prob := calculate_probability logits
  if conf_thresh ≤ prob then
    some (img_name ++ "\t" ++ construct_phrase id2sign (targets.map Int.ofNat))
  else none

/-- The phrase update of the interactive loop of `main`
(formula_recognition_demo.py:252-264): with no completed decode keep
`prev_text`; with a completed decode accept exactly when the confidence
reaches `conf_thresh ** len(logits)`, else display the empty phrase. -/
def interactivePhrase (id2sign : ℤ → Option String) (conf_thresh : ℚ)
    (prev_text : String) (model_res : Option DecodeResult) : String :=
  match model_res with
  | none => prev_text
  | some r =>
      if conf_thresh ^ r.logits.length ≤ calculate_probability r.logits then
        construct_phrase id2sign (r.targets.map Int.ofNat)
      else ""

lemma phraseTokens_eq_takeWhile (id2sign : ℤ → Option String) :
    ∀ indices : List ℤ,
      phraseTokens id2sign indices =
        (indices.takeWhile (fun t => t ≠ (END_TOKEN : ℤ))).map
          (fun t => (id2sign t).getD "?") := by
  intro indices
  induction indices with
  | nil => rfl
  | cons t ts ih =>
      by_cases h : t = (END_TOKEN : ℤ)
      · simp [phraseTokens, List.takeWhile_cons, h]
      · simp [phraseTokens, List.takeWhile_cons, h, ih]

/-- Claim C2: `construct_phrase` returns the space-joined table images of the
tokens strictly before the first occurrence of `END_TOKEN` (the end token
itself and everything after it contribute nothing), mapping every token id
absent from the table to the placeholder `"?"`; it is total, so it never
raises, for any token ids. -/
theorem C2_construct_phrase_spec (id2sign : ℤ → Option String) (indices : List ℤ) :
    construct_phrase id2sign indices =
      String.intercalate " "
        ((indices.takeWhile (fun t => t ≠ (END_TOKEN : ℤ))).map
          (fun t => (id2sign t).getD "?")) := by
  rw [construct_phrase, phraseTokens_eq_takeWhile]

/-- Claim C9: on a token list containing no `END_TOKEN`, `construct_phrase`
maps and joins every token of the list, and on the empty list it returns
the empty string. -/
theorem C9_construct_phrase_no_end (id2sign : ℤ → Option String) (indices : List ℤ)
    (h : (END_TOKEN : ℤ) ∉ indices) :
    construct_phrase id2sign indices =
      String.intercalate " " (indices.map (fun t => (id2sign t).getD "?"))
    ∧ construct_phrase id2sign [] = "" := by
  constructor
  · rw [construct_phrase, phraseTokens_eq_takeWhile]
    congr 1
    congr 1
    apply List.takeWhile_eq_self_iff.mpr
    intro t ht
    simp only [decide_eq_true_eq]
    intro hEq
    exact h (hEq ▸ ht)
  · rfl

/-- Closed instance of claim C9 at a concrete token list with no end token
and an unknown id, discharging the membership hypothesis. -/
theorem C9_construct_phrase_no_end_witness :
    (END_TOKEN : ℤ) ∉ ([5, 7] : List ℤ) ∧
    (construct_phrase (fun t => if t = 5 then some "x" else none) [5, 7] =
      String.intercalate " "
        (([5, 7] : List ℤ).map
          (fun t => ((fun u => if u = (5 : ℤ) then some "x" else none) t).getD "?"))
    ∧ construct_phrase (fun t => if t = (5 : ℤ) then some "x" else none) [] = "") :=
  ⟨by decide,
   C9_construct_phrase_no_end (fun t => if t = (5 : ℤ) then some "x" else none)
     [5, 7] (by decide)⟩

lemma le_foldl_max : ∀ (xs : List ℚ) (a b : ℚ), a ≤ b → a ≤ xs.foldl max b := by
  intro xs
  induction xs with
  | nil => intro a b h; simpa using h
  | cons y ys ih => intro a b h; exact ih a (max b y) (le_trans h (le_max_left b y))

lemma foldl_max_mem : ∀ (xs : List ℚ) (b : ℚ), xs.foldl max b = b ∨ xs.foldl max b ∈ xs := by
  intro xs
  induction xs with
  | nil => intro b; exact Or.inl rfl
  | cons y ys ih =>
      intro b
      rcases ih (max b y) with h | h
      · rcases max_choice b y with hb | hy
        · left; rw [List.foldl_cons, h, hb]
        · right; rw [List.foldl_cons, h, hy]; exact List.mem_cons_self y ys
      · right; exact List.mem_cons_of_mem y h

lemma mem_le_foldl_max : ∀ (xs : List ℚ) (b y : ℚ), y ∈ xs → y ≤ xs.foldl max b := by
  intro xs
  induction xs with
  | nil => intro b y h; cases h
  | cons z zs ih =>
      intro b y h
      rw [List.foldl_cons]
      rcases List.mem_cons.mp h with rfl | h
      · exact le_foldl_max zs _ _ (le_max_right _ _)
      · exact ih (max b z) y h

/-- Claim C3: `calculate_probability` is the product over all steps of the
maximum value of that step's vector; the empty sequence yields `1`, a
one-step sequence yields the max of its vector, a two-step sequence the
product of the two maxima, and `amax` of a non-empty vector is indeed its
maximum (a member that dominates every entry). -/
theorem C3_confidence_product (L : List (List ℚ)) (v v1 v2 : List ℚ) (hv : v ≠ []) :
    calculate_probability L = (L.map amax).prod
    ∧ calculate_probability [] = 1
    ∧ calculate_probability [v] = amax v
    ∧ calculate_probability [v1, v2] = amax v1 * amax v2
    ∧ amax v ∈ v
    ∧ (∀ x ∈ v, x ≤ amax v) := by
  obtain ⟨x, xs, rfl⟩ := List.exists_cons_of_ne_nil hv
  refine ⟨?_, rfl, ?_, ?_, ?_, ?_⟩
  · rw [calculate_probability, List.prod_eq_foldl]
  · simp [calculate_probability]
  · simp [calculate_probability]
  · rcases foldl_max_mem xs x with h | h
    · rw [amax, h]; exact List.mem_cons_self x xs
    · rw [amax]; exact List.mem_cons_of_mem x h
  · intro y hy
    rcases List.mem_cons.mp hy with rfl | hy
    · rw [amax]; exact le_foldl_max xs y y le_rfl
    · rw [amax]; exact mem_le_foldl_max xs x y hy

/-- Closed instance of claim C3 at concrete sequences, discharging the
non-emptiness hypothesis. -/
theorem C3_confidence_product_witness :
    ([(1 : ℚ), 2] ≠ []) ∧
    (calculate_probability [[(1 : ℚ), 2]] = ([[(1 : ℚ), 2]].map amax).prod
    ∧ calculate_probability [] = 1
    ∧ calculate_probability [[(1 : ℚ), 2]] = amax [(1 : ℚ), 2]
    ∧ calculate_probability [[(3 : ℚ)], [(4 : ℚ)]] = amax [(3 : ℚ)] * amax [(4 : ℚ)]
    ∧ amax [(1 : ℚ), 2] ∈ [(1 : ℚ), 2]
    ∧ (∀ x ∈ [(1 : ℚ), 2], x ≤ amax [(1 : ℚ), 2])) :=
  ⟨by decide, C3_confidence_product [[(1 : ℚ), 2]] [(1 : ℚ), 2] [(3 : ℚ)] [(4 : ℚ)] (by decide)⟩

/-- Claim C5: in non-blocking mode, a decoder wait that returns a non-zero
status makes the step call return `None` with the model state (status,
logit sequence, step counter, in-flight request) completely unchanged, so
the next call polls the same request again. -/
theorem C5_async_failed_poll (env : Env) (N : ℕ) (st : ℤ) (s : ModelState)
    (hdec : s.model_status = MStatus.decoder_infer) (hst : st ≠ 0) :
    infer_async env N st s = (s, none) := by
  obtain ⟨ms, n, lg, t⟩ := s
  simp only [ModelState.mk.injEq] at hdec ⊢
  subst hdec
  simp [infer_async, process_decoding_results, hst]

/-- Closed instance of claim C5: a failed poll (status 5) while a decoder
request is in flight leaves the state untouched and yields no result. -/
theorem C5_async_failed_poll_witness :
    infer_async ⟨fun _ => []⟩ 3 5
        { model_status := MStatus.decoder_infer, num_infers_decoder := 1,
          logits := [[1]], tgt := 0 } =
      ({ model_status := MStatus.decoder_infer, num_infers_decoder := 1,
         logits := [[1]], tgt := 0 }, none) :=
  C5_async_failed_poll ⟨fun _ => []⟩ 3 5 _ rfl (by decide)

/-- Claim C7: the confidence gate differs by mode.  The interactive
(non-blocking) path accepts a completed prediction exactly when its
confidence reaches `conf_thresh ^ len(logits)` (the number of emitted logit
vectors), while the blocking batch path accepts exactly when the confidence
reaches the flat `conf_thresh`, and a below-threshold image produces no
output line at all. -/
theorem C7_confidence_gates (id2sign : ℤ → Option String) (thresh : ℚ)
    (name prev : String) (logits : List (List ℚ)) (targets : List ℕ) :
    (thresh ≤ calculate_probability logits →
      batchOutputLine id2sign thresh name logits targets =
        some (name ++ "\t" ++ construct_phrase id2sign (targets.map Int.ofNat)))
    ∧ (¬ thresh ≤ calculate_probability logits →
      batchOutputLine id2sign thresh name logits targets = none)
    ∧ (thresh ^ logits.length ≤ calculate_probability logits →
      interactivePhrase id2sign thresh prev
          (some { logits := logits, targets := targets }) =
        construct_phrase id2sign (targets.map Int.ofNat))
    ∧ (¬ thresh ^ logits.length ≤ calculate_probability logits →
      interactivePhrase id2sign thresh prev
          (some { logits := logits, targets := targets }) = "") := by
  refine ⟨?_, ?_, ?_, ?_⟩ <;> intro h <;>
    simp [batchOutputLine, interactivePhrase, h]

/-- Closed instance of claim C7: a one-step decode of confidence 3/4 passes
both gates at threshold 1/2 (flat and step-scaled), producing the batch
output line and the interactive phrase. -/
theorem C7_confidence_gates_witness :
    batchOutputLine (fun _ => none) (1 / 2) "img" [[(3 : ℚ) / 4]] [5] =
      some ("img" ++ "\t" ++ construct_phrase (fun _ => none) (([5] : List ℕ).map Int.ofNat)) ∧
    interactivePhrase (fun _ => none) (1 / 2) "prev"
        (some { logits := [[(3 : ℚ) / 4]], targets := [5] }) =
      construct_phrase (fun _ => none) (([5] : List ℕ).map Int.ofNat) :=
  ⟨(C7_confidence_gates (fun _ => none) (1 / 2) "img" "prev" [[(3 : ℚ) / 4]] [5]).1
      (by norm_num [calculate_probability, amax]),
   (C7_confidence_gates (fun _ => none) (1 / 2) "img" "prev" [[(3 : ℚ) / 4]] [5]).2.2.1
      (by norm_num [calculate_probability, amax])⟩

/-- The external typesetting tool used by the claim C8 scenario: always
succeeds, producing bitmap `42`. -/
def toolC8 : String → Option ℕ := fun _ => some 42

/-- A freshly constructed `Renderer` (utils.py:289-297): no current formula,
no cached bitmap, a fixed temporary output path. -/
def rendererInit : RendererState :=
  { cur_formula := none, res_img := none, output_file := "render.png" }

/-- Claim C8 evaluated at its failing input (two consecutive `render "x"`
calls on a fresh renderer whose tool always succeeds): the first call
invokes the external tool once and returns the rendered pair
`(res_img, cur_formula)`; the second call with the identical phrase invokes
the tool zero times — so the tool runs at most once, as claimed — but
returns the `output_file` path string (utils.py:303), not the cached bitmap
pair the first call produced, which is what the claim asserts. -/
theorem C8_second_call_returns_path :
    render toolC8 rendererInit "x" =
      ({ cur_formula := some "x", res_img := some 42, output_file := "render.png" },
       RenderResult.imgPair (some 42) "x", 1)
    ∧ render toolC8 (render toolC8 rendererInit "x").1 "x" =
      ((render toolC8 rendererInit "x").1, RenderResult.filePath "render.png", 0) := by
  constructor <;> rfl

/-- A decoder whose second step's argmax is `END_TOKEN`; used to exercise
the blocking decode under failing wait statuses. -/
def envC4 : Env := ⟨fun i => if i = 2 then [0, 0, 1] else [0, 1, 0]⟩

/-- Counterexample to claim C4: in blocking mode, with every encoder and
decoder wait returning the non-zero status codes `7` and `5`, the decode is
not aborted and no failure reaches the caller — `infer_sync` consumes the
outputs of both "failed" steps and completes normally with a two-step
result.  The source discards the status `_run_encoder` returns
(utils.py:221) and the early return for a non-zero decoder status requires
`is_async` (utils.py:231), so the blocking path never checks any status. -/
theorem C4_counterexample :
    (infer_sync envC4 (fun _ => 5) 7 6 initState).2 =
      some { logits := [[0, 1, 0], [0, 0, 1]], targets := [1, 2] } := by
  decide

/-- Claim C4 (amended): in blocking mode, non-zero completion statuses are
ignored rather than propagated — the entire result of `infer_sync` is
independent of every status code the encoder and decoder waits return. -/
theorem C4_sync_ignores_status (env : Env) (d d2 : ℕ → ℤ) (e e2 : ℤ)
    (N : ℕ) (s : ModelState) :
    infer_sync env d e N s = infer_sync env d2 e2 N s := by
  have hp : ∀ (c1 c2 : ℤ) (st : ModelState),
      process_decoding_results env false N c1 st =
        process_decoding_results env false N c2 st := by
    intro c1 c2 st
    simp [process_decoding_results]
  have h : ∀ (fuel : ℕ) (st : ModelState),
      syncLoop env d N fuel st = syncLoop env d2 N fuel st := by
    intro fuel
    induction fuel with
    | zero => intro st; rfl
    | succ f ih =>
        intro st
        rw [syncLoop, syncLoop, hp (d st.num_infers_decoder) (d2 st.num_infers_decoder)]
        rcases hres : process_decoding_results env false N
            (d2 st.num_infers_decoder) st with ⟨s1, r⟩
        cases r with
        | none => simp only [ih]
        | some v => rfl
  simp only [infer_sync]
  exact h N (run_decoder (run_encoder e s).1)

lemma process_sync_stop (env : Env) (N : ℕ) (st : ℤ) (s : ModelState)
    (h : argmax (env.decLogit s.num_infers_decoder) = END_TOKEN ∨
      N ≤ s.num_infers_decoder) :
    process_decoding_results env false N st s =
      ({ s with
          model_status := MStatus.ready
          num_infers_decoder := 0
          logits := s.logits ++ [env.decLogit s.num_infers_decoder]
          tgt := argmax (env.decLogit s.num_infers_decoder) },
       some { logits := s.logits ++ [env.decLogit s.num_infers_decoder],
              targets := (s.logits ++ [env.decLogit s.num_infers_decoder]).map argmax }) := by
  rw [process_decoding_results, if_neg (by simp), if_pos h]

lemma process_sync_continue (env : Env) (N : ℕ) (st : ℤ) (s : ModelState)
    (h : ¬(argmax (env.decLogit s.num_infers_decoder) = END_TOKEN ∨
      N ≤ s.num_infers_decoder)) :
    process_decoding_results env false N st s =
      ({ s with
          num_infers_decoder := s.num_infers_decoder + 1
          logits := s.logits ++ [env.decLogit s.num_infers_decoder]
          tgt := argmax (env.decLogit s.num_infers_decoder) },
       none) := by
  rw [process_decoding_results, if_neg (by simp), if_neg h]

lemma range_map_shift (f : ℕ → List ℚ) (c n : ℕ) :
    f c :: (List.range n).map (fun j => f (c + 1 + j)) =
      (List.range (n + 1)).map (fun j => f (c + j)) := by
  rw [List.range_succ_eq_map, List.map_cons, List.map_map]
  refine congrArg₂ List.cons rfl ?_
  apply List.map_congr_left
  intro j _
  simp only [Function.comp_apply]
  congr 1
  omega

lemma syncLoop_reaches (env : Env) (decSt : ℕ → ℤ) (N k : ℕ)
    (hstop : argmax (env.decLogit k) = END_TOKEN ∨ N ≤ k) :
    ∀ (fuel : ℕ) (s : ModelState),
      s.num_infers_decoder ≤ k →
      (∀ i, s.num_infers_decoder ≤ i → i < k →
        argmax (env.decLogit i) ≠ END_TOKEN ∧ i < N) →
      k + 1 ≤ fuel + s.num_infers_decoder →
      (syncLoop env decSt N fuel s).2 =
        some { logits := s.logits ++ (List.range (k + 1 - s.num_infers_decoder)).map
                  (fun j => env.decLogit (s.num_infers_decoder + j)),
               targets := (s.logits ++ (List.range (k + 1 - s.num_infers_decoder)).map
                  (fun j => env.decLogit (s.num_infers_decoder + j))).map argmax } := by
  intro fuel
  induction fuel with
  | zero =>
      intro s hck _ hfuel
      exact absurd hfuel (by omega)
  | succ f ih =>
      intro s hck hmid hfuel
      by_cases hk : s.num_infers_decoder = k
      · have hstop2 : argmax (env.decLogit s.num_infers_decoder) = END_TOKEN ∨
            N ≤ s.num_infers_decoder := by rw [hk]; exact hstop
        rw [syncLoop, process_sync_stop env N _ s hstop2]
        have hone : k + 1 - s.num_infers_decoder = 1 := by omega
        rw [hone]
        simp [hk, List.range_succ, Function.comp]
      · have hlt : s.num_infers_decoder < k := lt_of_le_of_ne hck hk
        obtain ⟨hnotend, hltN⟩ := hmid s.num_infers_decoder le_rfl hlt
        have hcond : ¬(argmax (env.decLogit s.num_infers_decoder) = END_TOKEN ∨
            N ≤ s.num_infers_decoder) := by
          push_neg
          exact ⟨hnotend, by omega⟩
        rw [syncLoop, process_sync_continue env N _ s hcond]
        have hrec := ih
          { s with
              num_infers_decoder := s.num_infers_decoder + 1
              logits := s.logits ++ [env.decLogit s.num_infers_decoder]
              tgt := argmax (env.decLogit s.num_infers_decoder) }
          (by simpa using hlt)
          (by
            intro i h1 h2
            exact hmid i (by simp at h1; omega) h2)
          (by simp; omega)
        simp only at hrec
        have hlist : (s.logits ++ [env.decLogit s.num_infers_decoder]) ++
              (List.range (k + 1 - (s.num_infers_decoder + 1))).map
                (fun j => env.decLogit (s.num_infers_decoder + 1 + j)) =
            s.logits ++ (List.range (k + 1 - s.num_infers_decoder)).map
                (fun j => env.decLogit (s.num_infers_decoder + j)) := by
          rw [List.append_assoc, List.singleton_append]
          have h3 : k + 1 - (s.num_infers_decoder + 1) =
              (k - s.num_infers_decoder - 1) + 1 := by omega
          have h2 : k + 1 - s.num_infers_decoder =
              ((k - s.num_infers_decoder - 1) + 1) + 1 := by omega
          rw [h3, h2]
          congr 1
          exact range_map_shift env.decLogit s.num_infers_decoder
            ((k - s.num_infers_decoder - 1) + 1)
        rw [hrec, hlist]

/-- Claim C1: for a blocking decode with `max_formula_len = N ≥ 1`, the
decoder loop terminates exactly when the argmax of the just-unpacked logit
equals `END_TOKEN` or the number of decoder steps performed reaches `N`
(the source tests END first, then the length, as the disjunction is
written); a decoder whose argmax never equals `END_TOKEN` within the first
`N` steps yields exactly `N` steps and a logit sequence of length `N`, and
a decoder whose argmax first equals `END_TOKEN` at step `k < N` yields
exactly `k` steps (the step `i` logit being `decLogit i`, `i = 1, 2, …`). -/
theorem C1_sync_termination (env : Env) (decSt : ℕ → ℤ) (encSt : ℤ) (N : ℕ)
    (s : ModelState) (hN : 1 ≤ N) (hs : s.num_infers_decoder = 0) :
    (∀ (st : ℤ) (s2 : ModelState),
        ((process_decoding_results env false N st s2).2 ≠ none ↔
          (argmax (env.decLogit s2.num_infers_decoder) = END_TOKEN ∨
            N ≤ s2.num_infers_decoder)))
    ∧ ((∀ i, 1 ≤ i → i ≤ N → argmax (env.decLogit i) ≠ END_TOKEN) →
        (infer_sync env decSt encSt N s).2 =
          some { logits := (List.range N).map (fun j => env.decLogit (1 + j)),
                 targets := ((List.range N).map (fun j => env.decLogit (1 + j))).map argmax }
        ∧ ((List.range N).map (fun j => env.decLogit (1 + j))).length = N)
    ∧ (∀ k, 1 ≤ k → k < N → argmax (env.decLogit k) = END_TOKEN →
        (∀ i, 1 ≤ i → i < k → argmax (env.decLogit i) ≠ END_TOKEN) →
        (infer_sync env decSt encSt N s).2 =
          some { logits := (List.range k).map (fun j => env.decLogit (1 + j)),
                 targets := ((List.range k).map (fun j => env.decLogit (1 + j))).map argmax }
        ∧ ((List.range k).map (fun j => env.decLogit (1 + j))).length = k) := by
  have key : ∀ k, 1 ≤ k → k ≤ N →
      (argmax (env.decLogit k) = END_TOKEN ∨ N ≤ k) →
      (∀ i, 1 ≤ i → i < k → argmax (env.decLogit i) ≠ END_TOKEN) →
      (infer_sync env decSt encSt N s).2 =
        some { logits := (List.range k).map (fun j => env.decLogit (1 + j)),
               targets := ((List.range k).map (fun j => env.decLogit (1 + j))).map argmax } := by
    intro k hk1 hkN hstop hbefore
    have hnum : (run_decoder (run_encoder encSt s).1).num_infers_decoder = 1 := by
      simp [run_decoder, run_encoder, hs]
    have hmain := syncLoop_reaches env decSt N k hstop N
      (run_decoder (run_encoder encSt s).1)
      (by rw [hnum]; exact hk1)
      (by
        intro i hi1 hi2
        rw [hnum] at hi1
        exact ⟨hbefore i hi1 hi2, by omega⟩)
      (by rw [hnum]; omega)
    rw [hnum] at hmain
    have hlg : (run_decoder (run_encoder encSt s).1).logits = [] := rfl
    rw [hlg] at hmain
    have hkk : k + 1 - 1 = k := by omega
    rw [hkk] at hmain
    simpa [infer_sync] using hmain
  refine ⟨?_, ?_, ?_⟩
  · intro st s2
    by_cases h : argmax (env.decLogit s2.num_infers_decoder) = END_TOKEN ∨
        N ≤ s2.num_infers_decoder
    · rw [process_sync_stop env N st s2 h]
      simp [h]
    · rw [process_sync_continue env N st s2 h]
      simp [h]
  · intro hnoend
    refine ⟨key N hN le_rfl (Or.inr le_rfl)
      (fun i h1 h2 => hnoend i h1 (le_of_lt h2)), by simp⟩
  · intro k hk1 hkN hend hbefore
    refine ⟨key k hk1 (le_of_lt hkN) (Or.inl hend) hbefore, by simp⟩

/-- A decoder whose argmax first equals `END_TOKEN` at step 2; used to
instantiate claim C1. -/
def envC1 : Env := ⟨fun i => if i = 2 then [0, 0, 1] else [1, 0, 0]⟩

/-- Closed instance of claim C1: with `max_formula_len = 5` and a decoder
whose argmax first hits `END_TOKEN` at step 2, the blocking decode
terminates after exactly 2 steps with a logit sequence of length 2. -/
theorem C1_sync_termination_witness :
    (infer_sync envC1 (fun _ => 0) 0 5 initState).2 =
      some { logits := (List.range 2).map (fun j => envC1.decLogit (1 + j)),
             targets := ((List.range 2).map (fun j => envC1.decLogit (1 + j))).map argmax }
    ∧ ((List.range 2).map (fun j => envC1.decLogit (1 + j))).length = 2 :=
  (C1_sync_termination envC1 (fun _ => 0) 0 5 initState (by decide) rfl).2.2 2
    (by decide) (by decide) (by decide)
    (fun i h1 h2 => by
      have hi : i = 1 := by omega
      subst hi
      decide)

lemma infer_async_counter_zero (env : Env) (N : ℕ) (st : ℤ) (s : ModelState)
    (h : s.model_status ≠ MStatus.decoder_infer → s.num_infers_decoder = 0) :
    (infer_async env N st s).1.model_status ≠ MStatus.decoder_infer →
      (infer_async env N st s).1.num_infers_decoder = 0 := by
  obtain ⟨ms, n, lg, t⟩ := s
  cases ms with
  | ready =>
      intro _
      simp only [infer_async, run_encoder]
      exact h (by simp)
  | encoder_infer =>
      by_cases hst : st = 0
      · intro hc
        exfalso
        apply hc
        simp [infer_async, hst, run_decoder]
      · intro _
        simp only [infer_async, if_neg hst]
        exact h (by simp)
  | decoder_infer =>
      by_cases hst : st = 0
      · by_cases hterm : argmax (env.decLogit n) = END_TOKEN ∨ N ≤ n
        · intro _
          simp [infer_async, process_decoding_results, hst, hterm]
        · intro hc
          exfalso
          apply hc
          simp [infer_async, process_decoding_results, hst, hterm]
      · intro hc
        exfalso
        apply hc
        simp [infer_async, process_decoding_results, hst]

lemma runAsync_counter_zero (env : Env) (N : ℕ) :
    ∀ (statuses : List ℤ) (s : ModelState),
      (s.model_status ≠ MStatus.decoder_infer → s.num_infers_decoder = 0) →
      ((runAsync env N statuses s).model_status ≠ MStatus.decoder_infer →
        (runAsync env N statuses s).num_infers_decoder = 0) := by
  intro statuses
  induction statuses with
  | nil => intro s h; exact h
  | cons st rest ih =>
      intro s h
      exact ih ((infer_async env N st s).1) (infer_async_counter_zero env N st s h)

/-- Claim C6: the step counter behaves as an exact per-step counter.  In
any interactive run from the initial state, whenever no decoder request is
in flight (so in particular whenever the machine is `ready` to start a new
decode) the counter is `0`; completing the encoder starts the decode with
`previous_token = START_TOKEN`, a cleared logit sequence and the counter
moved from its pre-decode value to its successor (step 1 submitted); every
successful non-terminating decoder step increments the counter by exactly
1; and the terminating step resets it to `0`. -/
theorem C6_step_counter (env : Env) (N : ℕ) :
    (∀ statuses : List ℤ,
      (runAsync env N statuses initState).model_status ≠ MStatus.decoder_infer →
      (runAsync env N statuses initState).num_infers_decoder = 0)
    ∧ (∀ s : ModelState, s.model_status = MStatus.encoder_infer →
        (infer_async env N 0 s).1.tgt = START_TOKEN ∧
        (infer_async env N 0 s).1.logits = [] ∧
        (infer_async env N 0 s).1.num_infers_decoder = s.num_infers_decoder + 1)
    ∧ (∀ (is_async : Bool) (st : ℤ) (s : ModelState),
        ¬(st ≠ 0 ∧ is_async = true) →
        ¬(argmax (env.decLogit s.num_infers_decoder) = END_TOKEN ∨
          N ≤ s.num_infers_decoder) →
        (process_decoding_results env is_async N st s).1.num_infers_decoder =
          s.num_infers_decoder + 1)
    ∧ (∀ (is_async : Bool) (st : ℤ) (s : ModelState),
        ¬(st ≠ 0 ∧ is_async = true) →
        (argmax (env.decLogit s.num_infers_decoder) = END_TOKEN ∨
          N ≤ s.num_infers_decoder) →
        (process_decoding_results env is_async N st s).1.num_infers_decoder = 0) := by
  refine ⟨?_, ?_, ?_, ?_⟩
  · intro statuses
    exact runAsync_counter_zero env N statuses initState (fun _ => rfl)
  · intro s hms
    obtain ⟨ms, n, lg, t⟩ := s
    simp only at hms
    subst hms
    simp [infer_async, run_decoder]
  · intro is_async st s hok hterm
    rw [process_decoding_results, if_neg hok, if_neg hterm]
  · intro is_async st s hok hterm
    rw [process_decoding_results, if_neg hok, if_pos hterm]

/-- Closed instance of claim C6: from a polling state where the encoder has
just completed (counter `0`), the transition seeds `previous_token` with
`START_TOKEN`, clears the logit sequence and submits decoder step 1. -/
theorem C6_step_counter_witness :
    (infer_async ⟨fun _ => [(1 : ℚ)]⟩ 4 0
        { model_status := MStatus.encoder_infer, num_infers_decoder := 0,
          logits := [[5]], tgt := 9 }).1.tgt = START_TOKEN ∧
    (infer_async ⟨fun _ => [(1 : ℚ)]⟩ 4 0
        { model_status := MStatus.encoder_infer, num_infers_decoder := 0,
          logits := [[5]], tgt := 9 }).1.logits = [] ∧
    (infer_async ⟨fun _ => [(1 : ℚ)]⟩ 4 0
        { model_status := MStatus.encoder_infer, num_infers_decoder := 0,
          logits := [[5]], tgt := 9 }).1.num_infers_decoder =
      ({ model_status := MStatus.encoder_infer, num_infers_decoder := 0,
          logits := [[5]], tgt := 9 } : ModelState).num_infers_decoder + 1 :=
  (C6_step_counter ⟨fun _ => [(1 : ℚ)]⟩ 4).2.1
    { model_status := MStatus.encoder_infer, num_infers_decoder := 0,
      logits := [[5]], tgt := 9 } rfl

/-- Claim C10: for every rectangular input image and target shape
`(th, tw)`, `preprocess_image` with the `crop` preprocessing returns an
image of exactly `th` rows, each exactly `tw` pixels wide: `crop` never
exceeds either target dimension, and the bottom-right white padding fills
any remaining deficit. -/
theorem C10_preprocess_crop_shape (img : Image) (th tw : ℕ)
    (hrect : ∀ r ∈ img, r.length = imgWidth img) :
    ((crop img (th, tw)).length ≤ th ∧ (∀ r ∈ crop img (th, tw), r.length ≤ tw))
    ∧ (preprocess_image crop img (th, tw)).length = th
    ∧ (∀ r ∈ preprocess_image crop img (th, tw), r.length = tw) := by
  have hclen : (crop img (th, tw)).length = min th img.length := by
    simp only [crop, List.length_map, List.length_take]
    omega
  have hrows : ∀ r ∈ crop img (th, tw), r.length = min tw (imgWidth img) := by
    intro r hr
    simp only [crop, List.mem_map] at hr
    obtain ⟨r0, hr0, rfl⟩ := hr
    have hr0img : r0 ∈ img := (List.take_subset _ _) hr0
    rw [List.length_take, hrect r0 hr0img]
    omega
  have hcw : imgWidth (crop img (th, tw)) ≤ tw ∧
      (crop img (th, tw) = [] ∨
        imgWidth (crop img (th, tw)) = min tw (imgWidth img)) := by
    cases hc : crop img (th, tw) with
    | nil => simp [imgWidth]
    | cons r rs =>
        have hmem : r ∈ crop img (th, tw) := by
          rw [hc]; exact List.mem_cons_self r rs
        have hrlen := hrows r hmem
        constructor
        · simp only [imgWidth, List.headD_cons]
          rw [hrlen]; omega
        · right
          simp only [imgWidth, List.headD_cons]
          exact hrlen
  refine ⟨⟨?_, ?_⟩, ?_, ?_⟩
  · rw [hclen]; omega
  · intro r hr
    rw [hrows r hr]; omega
  · simp only [preprocess_image, copyMakeBorder, List.length_append,
      List.length_map, List.length_replicate]
    omega
  · intro r hr
    simp only [preprocess_image, copyMakeBorder, List.mem_append,
      List.mem_map, List.mem_replicate] at hr
    rcases hr with ⟨a, ha, rfl⟩ | ⟨hn, rfl⟩
    · rw [List.length_append, List.length_replicate, hrows a ha]
      have hcne : crop img (th, tw) ≠ [] := List.ne_nil_of_mem ha
      rcases hcw.2 with hnil | hweq
      · exact absurd hnil hcne
      · rw [hweq]; omega
    · rw [List.length_replicate]
      have := hcw.1
      omega

/-- Closed instance of claim C10: a 2x2 image cropped-and-padded to target
shape (3, 1) has exactly 3 rows. -/
theorem C10_preprocess_crop_shape_witness :
    (preprocess_image crop
        [[((0 : ℕ), (0 : ℕ), (0 : ℕ)), (1, 1, 1)], [(2, 2, 2), (3, 3, 3)]]
        (3, 1)).length = 3 :=
  (C10_preprocess_crop_shape
    [[((0 : ℕ), (0 : ℕ), (0 : ℕ)), (1, 1, 1)], [(2, 2, 2), (3, 3, 3)]] 3 1
    (by decide)).2.1
